import Mathlib

/-!
Verification development for the GCS (Group Communication System) client
library interface of the galera repository (src/gcs/src/gcs.h).

The repository exposes only the public header: constants, the action-type
enumeration and the documented contracts of the connection, fragmentation,
sequencing and Total Order (TO) monitor operations.  Constants and the
enumeration are embedded directly from the header.  Behaviour that the
header only declares (the action engine and the TO monitor) is modelled
from the specification, as noted on each definition.
-/

/-- Width modulus of the C type uint64_t, the representation of gcs_seqno_t. -/
def UINT64_MOD : Nat := 2 ^ 64

/-- Conversion of a C integer expression to uint64_t (reduction mod 2^64),
as performed by the initializer of GCS_SEQNO_ILL in gcs.h. -/
def uint64_of_int (i : Int) : Nat := (i % (UINT64_MOD : Int)).toNat

/-- Embedded from gcs.h line 26: static const gcs_seqno_t GCS_SEQNO_ILL = -1;
where gcs_seqno_t is uint64_t. -/
def GCS_SEQNO_ILL : Nat := uint64_of_int (-1)

/-- Embedded from gcs.h lines 96-109: the gcs_act_type enumeration, in
declaration order. -/
inductive gcs_act_type
  | GCS_ACT_DATA
  | GCS_ACT_COMMIT_CUT
  | GCS_ACT_SNAPSHOT
  | GCS_ACT_PRIMARY
  | GCS_ACT_SERVICE
  | GCS_ACT_NON_PRIMARY
  | GCS_ACT_ERROR
  | GCS_ACT_UNKNOWN
deriving DecidableEq, Repr

/-- The C enumerator value of each gcs_act_type member (no explicit values in
the source, so consecutive values from 0 in declaration order). -/
def gcs_act_type.toNat : gcs_act_type → Nat
  | .GCS_ACT_DATA => 0
  | .GCS_ACT_COMMIT_CUT => 1
  | .GCS_ACT_SNAPSHOT => 2
  | .GCS_ACT_PRIMARY => 3
  | .GCS_ACT_SERVICE => 4
  | .GCS_ACT_NON_PRIMARY => 5
  | .GCS_ACT_ERROR => 6
  | .GCS_ACT_UNKNOWN => 7

/-- Embedded from the gcs.h comments at lines 98 and 101: the members listed
under the comment "ordered actions" are GCS_ACT_DATA and GCS_ACT_COMMIT_CUT;
all members from GCS_ACT_SNAPSHOT on are listed under "unordered actions". -/
def gcs_act_type.isOrdered : gcs_act_type → Bool
  | .GCS_ACT_DATA => true
  | .GCS_ACT_COMMIT_CUT => true
  | _ => false

/-- Embedded from gcs.h lines 298-314: GCS-specific error code enumeration. -/
def GCS_ERR_OK : Int := 0

/-- Embedded from gcs.h line 300. -/
def GCS_ERR_BASE : Int := 0x100

/-- Embedded from gcs.h line 303 (first enumerator of the error enum). -/
def GCS_ERR_OTHER : Int := GCS_ERR_BASE

/-- Embedded from gcs.h line 304. -/
def GCS_ERR_INTERNAL : Int := GCS_ERR_BASE + 1

/-- Embedded from gcs.h line 305. -/
def GCS_ERR_CHANNEL : Int := GCS_ERR_BASE + 2

/-- Embedded from gcs.h line 306. -/
def GCS_ERR_SOCKET : Int := GCS_ERR_BASE + 3

/-- Embedded from gcs.h line 307. -/
def GCS_ERR_BACKEND : Int := GCS_ERR_BASE + 4

/-- Embedded from gcs.h line 308. -/
def GCS_ERR_COULD_NOT_CONNECT : Int := GCS_ERR_BASE + 5

/-- Embedded from gcs.h line 309. -/
def GCS_ERR_CONNECTION_CLOSED : Int := GCS_ERR_BASE + 6

/-- Embedded from gcs.h line 310. -/
def GCS_ERR_NOT_CONNECTED : Int := GCS_ERR_BASE + 7

/-- Embedded from gcs.h line 311. -/
def GCS_ERR_NON_PRIMARY : Int := GCS_ERR_BASE + 8

/-- Embedded from gcs.h line 312 (last error enumerator before GCS_ERR_MAX). -/
def GCS_ERR_ABORTED : Int := GCS_ERR_BASE + 9

/-- Embedded from gcs.h line 313. -/
def GCS_ERR_MAX : Int := GCS_ERR_BASE + 10

/-- The ten GCS-specific error codes of gcs.h lines 303-312, in order. -/
def gcsErrCodes : List Int :=
  [GCS_ERR_OTHER, GCS_ERR_INTERNAL, GCS_ERR_CHANNEL, GCS_ERR_SOCKET,
   GCS_ERR_BACKEND, GCS_ERR_COULD_NOT_CONNECT, GCS_ERR_CONNECTION_CLOSED,
   GCS_ERR_NOT_CONNECTED, GCS_ERR_NON_PRIMARY, GCS_ERR_ABORTED]

/-- Modelled from the spec: POSIX errno value EAGAIN (Linux value 11); gcs.h
only names the constant in the gcs_to_grab documentation, the numeric value
comes from the platform headers, which are not part of src/. -/
def EAGAIN : Int := 11

/-- Modelled from the spec: POSIX errno value EBUSY (Linux value 16); named in
the gcs_to_destroy documentation of gcs.h. -/
def EBUSY : Int := 16

/-- Modelled from the spec: POSIX errno value ERANGE (Linux value 34); named in
the gcs_to_cancel and gcs_to_withdraw documentation of gcs.h. -/
def ERANGE : Int := 34

/-- The negated-errno failure values the TO monitor operations report,
per the gcs.h documentation of gcs_to_destroy, gcs_to_grab and
gcs_to_cancel. -/
def toErrCodes : List Int := [-EAGAIN, -EBUSY, -ERANGE]

/-- Modelled from the spec: the backend selected by gcs_create, whose
implementation is not under src/ (gcs.h line 43 only declares it).  The
recognized schemes are those listed in the gcs.h documentation:
"dummy", "spread", "gcomm". -/
inductive GcsBackendKind
  | dummy
  | spread (addr : List Char)
  | gcomm (addr : List Char)
deriving DecidableEq, Repr

/-- Modelled from the spec: split a backend URL of the form
TYPE followed by "://" followed by ADDRESS at the first occurrence
of "://" into the scheme and the address. -/
def splitScheme : List Char → Option (List Char × List Char)
  | [] => none
  | ':' :: '/' :: '/' :: rest => some ([], rest)
  | c :: rest =>
      match splitScheme rest with
      | some (sch, addr) => some (c :: sch, addr)
      | none => none

/-- Modelled from the spec: gcs_create, whose body is not under src/
(gcs.h lines 31-44 declare it and document the recognized backend types
"dummy", "spread", "gcomm", the dummy address being ignored, and NULL on
failure, here none). -/
def gcs_create (url : List Char) : Option GcsBackendKind :=
  match splitScheme url with
  | none => none
  | some (sch, addr) =>
      if sch = "dummy".data then some GcsBackendKind.dummy
      else if sch = "spread".data then some (GcsBackendKind.spread addr)
      else if sch = "gcomm".data then some (GcsBackendKind.gcomm addr)
      else none

/-- C10: In gcs_act_type the two ordered kinds come first (GCS_ACT_DATA = 0,
GCS_ACT_COMMIT_CUT = 1) and all unordered kinds follow, so a kind k is ordered
if and only if k.toNat < GCS_ACT_SNAPSHOT.toNat, and GCS_ACT_UNKNOWN is the
last enumerator. -/
theorem gcs_act_type_layout :
    gcs_act_type.GCS_ACT_DATA.toNat = 0
  ∧ gcs_act_type.GCS_ACT_COMMIT_CUT.toNat = 1
  ∧ (∀ k : gcs_act_type,
      k.isOrdered = true ↔ k.toNat < gcs_act_type.GCS_ACT_SNAPSHOT.toNat)
  ∧ gcs_act_type.GCS_ACT_UNKNOWN.toNat = 7
  ∧ (∀ k : gcs_act_type, k.toNat ≤ gcs_act_type.GCS_ACT_UNKNOWN.toNat) := by
  refine ⟨rfl, rfl, ?_, rfl, ?_⟩
  · intro k; cases k <;> simp [gcs_act_type.isOrdered, gcs_act_type.toNat]
  · intro k; cases k <;> simp [gcs_act_type.toNat]

/-- C8: GCS_SEQNO_ILL, declared as the uint64_t value -1, equals 2^64 - 1;
it differs from every valid group seqno s with 1 <= s < 2^64 - 1, and it is
itself representable as a uint64_t value. -/
theorem gcs_seqno_ill_value :
    GCS_SEQNO_ILL = 2 ^ 64 - 1
  ∧ (∀ s : Nat, 1 ≤ s → s < 2 ^ 64 - 1 → s ≠ GCS_SEQNO_ILL)
  ∧ GCS_SEQNO_ILL < UINT64_MOD := by
  have hval : GCS_SEQNO_ILL = 2 ^ 64 - 1 := by decide
  refine ⟨hval, ?_, ?_⟩
  · intro s _ hs
    rw [hval]
    exact Nat.ne_of_lt hs
  · rw [hval]; decide

/-- C8 witness: instantiation of the middle conjunct at s = 5. -/
theorem gcs_seqno_ill_value_witness : (5 : Nat) ≠ GCS_SEQNO_ILL :=
  gcs_seqno_ill_value.2.1 5 (by decide) (by decide)

/-- C9: the GCS-specific error codes occupy the contiguous range 0x100
(GCS_ERR_OTHER) through 0x109 (GCS_ERR_ABORTED) below GCS_ERR_MAX, while the
TO-monitor failure values are negated POSIX errno values of magnitude below
0x100, so no TO error value collides with a negated GCS error value or
with success (0). -/
theorem gcs_error_families_disjoint :
    GCS_ERR_OTHER = 0x100
  ∧ GCS_ERR_ABORTED = 0x109
  ∧ gcsErrCodes = (List.range 10).map (fun i => GCS_ERR_BASE + i)
  ∧ (∀ c ∈ gcsErrCodes, GCS_ERR_BASE ≤ c ∧ c < GCS_ERR_MAX)
  ∧ (∀ e ∈ toErrCodes, e < 0 ∧ e.natAbs < 0x100)
  ∧ (∀ e ∈ toErrCodes, ∀ c ∈ gcsErrCodes, e ≠ -c)
  ∧ (∀ e ∈ toErrCodes, e ≠ GCS_ERR_OK) := by
  decide

/-- C7: gcs_create recognizes the backend URL schemes "dummy", "spread" and
"gcomm", and creation fails (returns none) for every URL whose scheme is not
one of those three. -/
theorem gcs_create_schemes :
    (gcs_create ("dummy://ignored".data)).isSome = true
  ∧ (gcs_create ("spread://localhost:4803".data)).isSome = true
  ∧ (gcs_create ("gcomm://host".data)).isSome = true
  ∧ (∀ url sch addr, splitScheme url = some (sch, addr) →
       sch ≠ "dummy".data → sch ≠ "spread".data → sch ≠ "gcomm".data →
       gcs_create url = none) := by
  refine ⟨by decide, by decide, by decide, ?_⟩
  intro url sch addr hsplit h1 h2 h3
  unfold gcs_create
  rw [hsplit]
  simp [h1, h2, h3]

/-- C7 witness: a URL with the unrecognized scheme "foo" fails creation. -/
theorem gcs_create_schemes_witness : gcs_create ("foo://bar".data) = none :=
  gcs_create_schemes.2.2.2 ("foo://bar".data) ("foo".data) ("bar".data)
    (by decide) (by decide) (by decide) (by decide)

/-- Modelled from the spec: the sequencer state of section 4.C (the sequencer
implementation is not under src/; gcs.h only documents gcs_recv seqno
assignment).  global_next is set from the most recent PRIMARY descriptor,
local_next starts at 1, primary records whether the current configuration is
primary. -/
structure SeqState where
  global_next : Nat
  local_next : Nat
  primary : Bool
deriving DecidableEq, Repr

/-- Modelled from the spec: an input to the sequencer, either a reassembled
action of a given kind or a view change carrying the configuration
descriptor's next_seqno. -/
inductive SeqInput
  | act (k : gcs_act_type)
  | view (prim : Bool) (next_seqno : Nat)
deriving DecidableEq, Repr

/-- A delivered action as returned by gcs_recv: kind, global seqno (act_id)
and local seqno (local_act_id), named as in gcs.h lines 146-151. -/
structure Delivered where
  kind : gcs_act_type
  act_id : Nat
  local_act_id : Nat
deriving DecidableEq, Repr

/-- Modelled from the spec: one sequencer delivery step (spec section 4.C).
Ordered kinds in a primary configuration get global_next and local_next and
both counters advance; ordered kinds in a non-primary configuration are
converted to GCS_ACT_ERROR with global GCS_SEQNO_ILL; unordered kinds get
global GCS_SEQNO_ILL; every delivered action consumes one local seqno.  A view
change synthesizes a PRIMARY or NON_PRIMARY action, occupies the next local
seqno slot without consuming a global seqno, and resets global_next from the
descriptor when transitioning into primary. -/
def seq_deliver (st : SeqState) : SeqInput → Delivered × SeqState
  | SeqInput.act k =>
      if k.isOrdered then
        if st.primary then
          (⟨k, st.global_next, st.local_next⟩,
           ⟨st.global_next + 1, st.local_next + 1, st.primary⟩)
        else
          (⟨gcs_act_type.GCS_ACT_ERROR, GCS_SEQNO_ILL, st.local_next⟩,
           ⟨st.global_next, st.local_next + 1, st.primary⟩)
      else
        (⟨k, GCS_SEQNO_ILL, st.local_next⟩,
         ⟨st.global_next, st.local_next + 1, st.primary⟩)
  | SeqInput.view p ns =>
      (⟨if p then gcs_act_type.GCS_ACT_PRIMARY else gcs_act_type.GCS_ACT_NON_PRIMARY,
        GCS_SEQNO_ILL, st.local_next⟩,
       ⟨if p then ns else st.global_next, st.local_next + 1, p⟩)

/-- Modelled from the spec: the sequencer run over a stream of inputs,
producing the stream of delivered actions returned by successive gcs_recv
calls of one connection. -/
def seq_run (st : SeqState) : List SeqInput → List Delivered × SeqState
  | [] => ([], st)
  | i :: is =>
      let r1 := seq_deliver st i
      let r2 := seq_run r1.2 is
      (r1.1 :: r2.1, r2.2)

/-- Every sequencer delivery hands out the current local_next as the local
seqno and advances local_next by exactly one, for every input kind. -/
theorem seq_deliver_local (st : SeqState) (i : SeqInput) :
    (seq_deliver st i).1.local_act_id = st.local_next
  ∧ (seq_deliver st i).2.local_next = st.local_next + 1 := by
  cases i with
  | act k =>
      by_cases h : k.isOrdered <;> by_cases hp : st.primary <;>
        simp [seq_deliver, h, hp]
  | view p ns => simp [seq_deliver]

/-- The local seqnos of a sequencer run from state st are the consecutive
integers st.local_next, st.local_next + 1, ... -/
theorem seq_run_locals (ins : List SeqInput) : ∀ st : SeqState,
    (seq_run st ins).1.map Delivered.local_act_id
      = List.range' st.local_next ins.length := by
  induction ins with
  | nil => intro st; rfl
  | cons i is ih =>
      intro st
      have h := seq_deliver_local st i
      simp only [seq_run, List.map_cons, List.length_cons, List.range']
      rw [h.1, ih (seq_deliver st i).2, h.2]

/-- C2: sequencer seqno assignment.  Ordered kinds are exactly DATA and
COMMIT_CUT; in a primary configuration an ordered action gets
global = global_next (which then increments) and local = local_next (which
then increments); in a non-primary configuration an ordered action is
converted to GCS_ACT_ERROR with global GCS_SEQNO_ILL; an unordered action
gets global GCS_SEQNO_ILL and local = local_next (which then increments). -/
theorem sequencer_seqno_assignment (st : SeqState) (k : gcs_act_type) :
    (k.isOrdered = true ↔
        (k = gcs_act_type.GCS_ACT_DATA ∨ k = gcs_act_type.GCS_ACT_COMMIT_CUT))
  ∧ (k.isOrdered = true → st.primary = true →
        seq_deliver st (SeqInput.act k)
          = (⟨k, st.global_next, st.local_next⟩,
             ⟨st.global_next + 1, st.local_next + 1, st.primary⟩))
  ∧ (k.isOrdered = true → st.primary = false →
        seq_deliver st (SeqInput.act k)
          = (⟨gcs_act_type.GCS_ACT_ERROR, GCS_SEQNO_ILL, st.local_next⟩,
             ⟨st.global_next, st.local_next + 1, st.primary⟩))
  ∧ (k.isOrdered = false →
        seq_deliver st (SeqInput.act k)
          = (⟨k, GCS_SEQNO_ILL, st.local_next⟩,
             ⟨st.global_next, st.local_next + 1, st.primary⟩)) := by
  refine ⟨?_, ?_, ?_, ?_⟩
  · cases k <;> simp [gcs_act_type.isOrdered]
  · intro h hp; simp [seq_deliver, h, hp]
  · intro h hp; simp [seq_deliver, h, hp]
  · intro h; simp [seq_deliver, h]

/-- C2 witness: a DATA action delivered in a primary configuration with
global_next = 5 and local_next = 3. -/
theorem sequencer_seqno_assignment_witness :
    seq_deliver ⟨5, 3, true⟩ (SeqInput.act gcs_act_type.GCS_ACT_DATA)
      = (⟨gcs_act_type.GCS_ACT_DATA, 5, 3⟩, ⟨6, 4, true⟩) :=
  (sequencer_seqno_assignment ⟨5, 3, true⟩ gcs_act_type.GCS_ACT_DATA).2.1 rfl rfl

/-- C4: starting from local_next = 1, the local seqnos reported by successive
successful gcs_recv returns of a connection form the gapless sequence
1, 2, 3, ..., over all delivered actions, whether their kind is ordered or
unordered and whether the configuration is primary or not. -/
theorem gcs_recv_local_seqno_gapless (g : Nat) (p : Bool) (ins : List SeqInput) :
    (seq_run ⟨g, 1, p⟩ ins).1.map Delivered.local_act_id
      = List.range' 1 ins.length :=
  seq_run_locals ins ⟨g, 1, p⟩

/-- Modelled from the spec: the fragmenter's chunking of a payload into
pieces of at most b elements (spec section 4.B; the fragmenter implementation
is not under src/, gcs.h only documents gcs_send and the packet size). -/
def chunkList {α : Type} (b : Nat) : List α → List (List α)
  | [] => []
  | c :: rest =>
      if _hb : b = 0 then []
      else (c :: rest).take b :: chunkList b ((c :: rest).drop b)
termination_by l => l.length
decreasing_by
  simp only [List.length_drop, List.length_cons]
  omega

/-- Modelled from the spec: the send path of gcs_send emits the payload in
fragments whose payload budget is pkt_size - header_overhead. -/
def gcs_send_frags (pkt_size hdr : Nat) (action : List Nat) : List (List Nat) :=
  chunkList (pkt_size - hdr) action

/-- Modelled from the spec: the receive path reassembles an action by
concatenating its fragments in order; the completed action is what gcs_recv
hands to the application. -/
def gcs_recv_payload (frags : List (List Nat)) : List Nat := frags.flatten

/-- Concatenating the chunks of a list gives back the list, for a positive
chunk size. -/
theorem chunkList_join {α : Type} (b : Nat) (hb : 0 < b) (l : List α) :
    (chunkList b l).flatten = l := by
  have H : ∀ n (l : List α), l.length ≤ n → (chunkList b l).flatten = l := by
    intro n
    induction n with
    | zero =>
        intro l hl
        have hnil : l = [] := List.eq_nil_of_length_eq_zero (Nat.le_zero.mp hl)
        subst hnil
        simp [chunkList]
    | succ n ih =>
        intro l hl
        cases l with
        | nil => simp [chunkList]
        | cons c rest =>
            rw [chunkList, dif_neg (by omega : ¬ b = 0)]
            have hdrop : ((c :: rest).drop b).length ≤ n := by
              simp only [List.length_drop, List.length_cons]
              simp only [List.length_cons] at hl
              omega
            simp only [List.flatten_cons]
            rw [ih _ hdrop, List.take_append_drop]
  exact H l.length l (Nat.le_refl _)

/-- Arithmetic step of the ceiling-division fragment count. -/
theorem ceil_div_step (n b : Nat) (hn : 1 ≤ n) (hb : 1 ≤ b) :
    (n + b - 1) / b = (n - b + b - 1) / b + 1 := by
  have h1 : n + b - 1 = (n - 1) + b := by omega
  rw [h1, Nat.add_div_right _ hb]
  rcases le_or_lt b n with h | h
  · have h2 : n - b + b - 1 = n - 1 := by omega
    rw [h2]
  · have h2 : n - b + b - 1 = b - 1 := by omega
    rw [h2, Nat.div_eq_of_lt (by omega), Nat.div_eq_of_lt (by omega)]

/-- The number of chunks is the ceiling of length over chunk size. -/
theorem chunkList_length {α : Type} (b : Nat) (hb : 0 < b) (l : List α) :
    (chunkList b l).length = (l.length + b - 1) / b := by
  have H : ∀ n (l : List α), l.length ≤ n →
      (chunkList b l).length = (l.length + b - 1) / b := by
    intro n
    induction n with
    | zero =>
        intro l hl
        have hnil : l = [] := List.eq_nil_of_length_eq_zero (Nat.le_zero.mp hl)
        subst hnil
        simp [chunkList, Nat.div_eq_of_lt (by omega : b - 1 < b)]
    | succ n ih =>
        intro l hl
        cases l with
        | nil => simp [chunkList, Nat.div_eq_of_lt (by omega : b - 1 < b)]
        | cons c rest =>
            rw [chunkList, dif_neg (by omega : ¬ b = 0)]
            have hdrop : ((c :: rest).drop b).length ≤ n := by
              simp only [List.length_drop, List.length_cons]
              simp only [List.length_cons] at hl
              omega
            simp only [List.length_cons]
            rw [ih _ hdrop]
            simp only [List.length_drop, List.length_cons]
            rw [ceil_div_step (rest.length + 1) b (by omega) hb]
  exact H l.length l (Nat.le_refl _)

/-- C3: fragmentation round-trips.  For every payload and every packet size
pkt_size >= header_overhead + 1, the payload sent by gcs_send and reassembled
by gcs_recv is byte-for-byte identical, and the sender emits exactly
ceil(n / (pkt_size - header_overhead)) fragments. -/
theorem gcs_fragmentation_roundtrip (pkt_size hdr : Nat)
    (h : hdr + 1 ≤ pkt_size) (action : List Nat) :
    gcs_recv_payload (gcs_send_frags pkt_size hdr action) = action
  ∧ (gcs_send_frags pkt_size hdr action).length
      = (action.length + (pkt_size - hdr) - 1) / (pkt_size - hdr) := by
  have hb : 0 < pkt_size - hdr := by omega
  exact ⟨chunkList_join _ hb action, chunkList_length _ hb action⟩

/-- C3 witness: packet size 8, header overhead 4, a 10-byte payload
round-trips and is emitted as ceil(10/4) = 3 fragments. -/
theorem gcs_fragmentation_roundtrip_witness :
    gcs_recv_payload (gcs_send_frags 8 4 [0, 1, 2, 3, 4, 5, 6, 7, 8, 9])
      = [0, 1, 2, 3, 4, 5, 6, 7, 8, 9]
  ∧ (gcs_send_frags 8 4 [0, 1, 2, 3, 4, 5, 6, 7, 8, 9]).length = 3 :=
  gcs_fragmentation_roundtrip 8 4 (by decide) [0, 1, 2, 3, 4, 5, 6, 7, 8, 9]

/-- Modelled from the spec: per-slot state of the TO monitor ring (spec
section 3).  The spec's single "cancelled" state is split in two:
cancelled (set by gcs_to_cancel: the waiter is woken with cancelled-error,
the turn is not yet passed) and selfCancelled (set by gcs_to_self_cancel,
which per spec section 4.E additionally lets the released watermark advance
through the seqno). -/
inductive SlotState
  | empty
  | waiting
  | cancelled
  | selfCancelled
  | used
deriving DecidableEq, Repr

/-- Modelled from the spec: state of a TO monitor (spec sections 3 and 4.E):
ring capacity len, released watermark r, and the slot state of every seqno
(slots are indexed by seqno; the ring bound is enforced by the
s - r <= len admission check of grab). -/
structure ToState where
  len : Nat
  r : Nat
  slots : Nat → SlotState

/-- Pointwise update of the slot map. -/
def slotUpdate (f : Nat → SlotState) (n : Nat) (v : SlotState) :
    Nat → SlotState :=
  fun m => if m = n then v else f m

theorem slotUpdate_same (f : Nat → SlotState) (n : Nat) (v : SlotState) :
    slotUpdate f n v n = v := by
  simp [slotUpdate]

theorem slotUpdate_other (f : Nat → SlotState) (n m : Nat) (v : SlotState)
    (h : m ≠ n) : slotUpdate f n v m = f m := by
  simp [slotUpdate, h]

/-- Modelled from the spec: gcs_to_create (len, seqno_0) allocates the ring
and sets the released watermark r = seqno_0 - 1 (spec section 4.E; the TO
implementation is not under src/, gcs.h lines 177-188 declare it). -/
def gcs_to_create (len s0 : Nat) : ToState :=
  ⟨len, s0 - 1, fun _ => SlotState.empty⟩

/-- Observable events of the TO monitor: a grab registering as waiter, a grab
returning success, a grab returning cancelled-error, a release, a cancel,
a self-cancel, and the watermark skipping a self-cancelled seqno. -/
inductive ToEvent
  | grabStart (s : Nat)
  | grabOk (s : Nat)
  | grabCancelled (s : Nat)
  | release (s : Nat)
  | cancel (s : Nat)
  | selfCancel (s : Nat)
  | skip (s : Nat)
deriving DecidableEq, Repr

/-- Modelled from the spec: the transition relation of the TO monitor, from
spec section 4.E.  grabStart admits a waiter for seqno s when r < s,
s - r <= len and the slot is free; grabOk completes the wait when the
watermark has reached s - 1 and marks the slot used; grabCancelled is the
cancelled-error return of a present or future grab on a cancelled slot;
release requires the slot to be held (used) and advances r to s; cancel marks
a not-yet-used slot cancelled; selfCancel marks a slot the caller never
grabbed (or a cancelled one it gave up) selfCancelled; skip advances the
watermark through a self-cancelled seqno, per section 4.E where self-cancel
(unlike cancel) advances r through s. -/
inductive ToStep : ToState → ToEvent → ToState → Prop
  | grabStart (st : ToState) (s : Nat)
      (h1 : st.r < s) (h2 : s ≤ st.r + st.len)
      (h3 : st.slots s = SlotState.empty) :
      ToStep st (ToEvent.grabStart s)
        ⟨st.len, st.r, slotUpdate st.slots s SlotState.waiting⟩
  | grabOk (st : ToState) (s : Nat)
      (h1 : st.slots s = SlotState.waiting) (h2 : st.r + 1 = s) :
      ToStep st (ToEvent.grabOk s)
        ⟨st.len, st.r, slotUpdate st.slots s SlotState.used⟩
  | grabCancelled (st : ToState) (s : Nat)
      (h1 : st.slots s = SlotState.cancelled ∨
            st.slots s = SlotState.selfCancelled)
      (h2 : st.r < s) :
      ToStep st (ToEvent.grabCancelled s) st
  | release (st : ToState) (s : Nat)
      (h1 : st.slots s = SlotState.used) (h2 : st.r + 1 = s) :
      ToStep st (ToEvent.release s) ⟨st.len, s, st.slots⟩
  | cancel (st : ToState) (s : Nat)
      (h1 : st.r < s)
      (h2 : st.slots s = SlotState.empty ∨ st.slots s = SlotState.waiting ∨
            st.slots s = SlotState.cancelled) :
      ToStep st (ToEvent.cancel s)
        ⟨st.len, st.r, slotUpdate st.slots s SlotState.cancelled⟩
  | selfCancel (st : ToState) (s : Nat)
      (h1 : st.r < s)
      (h2 : st.slots s = SlotState.empty ∨ st.slots s = SlotState.cancelled) :
      ToStep st (ToEvent.selfCancel s)
        ⟨st.len, st.r, slotUpdate st.slots s SlotState.selfCancelled⟩
  | skip (st : ToState) (s : Nat)
      (h1 : st.slots s = SlotState.selfCancelled) (h2 : st.r + 1 = s) :
      ToStep st (ToEvent.skip s) ⟨st.len, s, st.slots⟩

/-- A finite execution of the TO monitor: the list of events applied in
order from the initial state. -/
inductive ToTrace (init : ToState) : List ToEvent → ToState → Prop
  | nil : ToTrace init [] init
  | snoc {tr : List ToEvent} {st : ToState} {e : ToEvent} {st2 : ToState} :
      ToTrace init tr st → ToStep st e st2 → ToTrace init (tr ++ [e]) st2

/-- An empty trace does not move the state. -/
theorem toTrace_nil_eq {a b : ToState} (h : ToTrace a [] b) : a = b := by
  generalize hL : ([] : List ToEvent) = L at h
  cases h with
  | nil => rfl
  | snoc h1 h2 => simp at hL

/-- Inversion of a trace ending in one event. -/
theorem toTrace_snoc_inv {init st : ToState} {L : List ToEvent} {e : ToEvent}
    (h : ToTrace init (L ++ [e]) st) :
    ∃ st1, ToTrace init L st1 ∧ ToStep st1 e st := by
  generalize hM : L ++ [e] = M at h
  cases h with
  | nil => simp at hM
  | snoc h1 h2 =>
      obtain ⟨hL, hE⟩ := List.append_inj' hM rfl
      subst hL
      injection hE with hE2 hE3
      subst hE2
      exact ⟨_, h1, h2⟩

/-- A trace over an appended event list splits at the seam. -/
theorem toTrace_append {u v : List ToEvent} : ∀ {init st : ToState},
    ToTrace init (u ++ v) st →
    ∃ mid, ToTrace init u mid ∧ ToTrace mid v st := by
  induction v using List.reverseRecOn with
  | nil =>
      intro init st h
      rw [List.append_nil] at h
      exact ⟨st, h, ToTrace.nil⟩
  | append_singleton v2 e ih =>
      intro init st h
      rw [← List.append_assoc] at h
      obtain ⟨st1, h1, h2⟩ := toTrace_snoc_inv h
      obtain ⟨mid, hm1, hm2⟩ := ih h1
      exact ⟨mid, hm1, ToTrace.snoc hm2 h2⟩

/-- Inversion of a one-event trace. -/
theorem toTrace_single_inv {init st : ToState} {e : ToEvent}
    (h : ToTrace init [e] st) : ToStep init e st := by
  obtain ⟨st1, h1, h2⟩ := toTrace_snoc_inv (L := []) h
  obtain rfl := toTrace_nil_eq h1
  exact h2

/-- Appending a non-grabStart event (or a grabStart of another seqno) keeps
the per-seqno count of grabStart events at most one. -/
theorem count_app_le {tr : List ToEvent} {e : ToEvent} {m : Nat}
    (h1 : tr.count (ToEvent.grabStart m) ≤ 1) (h2 : ToEvent.grabStart m ≠ e) :
    (tr ++ [e]).count (ToEvent.grabStart m) ≤ 1 := by
  rw [List.count_append]
  have h0 : ([e] : List ToEvent).count (ToEvent.grabStart m) = 0 :=
    List.count_eq_zero.mpr (by simpa using h2)
  omega

/-- History invariant of the TO monitor: the watermark never drops below
seqno_0 - 1; every seqno the watermark has covered was released or
self-cancelled; a self-cancelled slot records a selfCancel event and a used
slot a successful grab; a free slot has never been grabbed; and no seqno is
ever grabbed twice. -/
def ToInv (s0 : Nat) (tr : List ToEvent) (st : ToState) : Prop :=
  (s0 - 1 ≤ st.r)
  ∧ (∀ m, s0 ≤ m → m ≤ st.r →
        ToEvent.release m ∈ tr ∨ ToEvent.selfCancel m ∈ tr)
  ∧ (∀ m, st.slots m = SlotState.selfCancelled → ToEvent.selfCancel m ∈ tr)
  ∧ (∀ m, st.slots m = SlotState.used → ToEvent.grabOk m ∈ tr)
  ∧ (∀ m, st.slots m = SlotState.empty → ToEvent.grabStart m ∉ tr)
  ∧ (∀ m, tr.count (ToEvent.grabStart m) ≤ 1)

/-- The history invariant holds along every trace of the TO monitor started
from gcs_to_create. -/
theorem toInv_holds (len s0 : Nat) (h0 : 1 ≤ s0) :
    ∀ {tr : List ToEvent} {st : ToState},
    ToTrace (gcs_to_create len s0) tr st → ToInv s0 tr st := by
  intro tr st htr
  induction htr with
  | nil =>
      refine ⟨Nat.le_refl _, ?_, ?_, ?_, ?_, ?_⟩
      · intro m hm1 hm2
        simp only [gcs_to_create] at hm2
        omega
      · intro m hm
        simp [gcs_to_create] at hm
      · intro m hm
        simp [gcs_to_create] at hm
      · intro m _
        exact List.not_mem_nil _
      · intro m
        simp
  | @snoc trm stm e st2 h1 h2 ih =>
      obtain ⟨ih1, ih2, ih3, ih4, ih5, ih6⟩ := ih
      cases h2 with
      | grabStart s hs1 hs2 hs3 =>
          refine ⟨ih1, ?_, ?_, ?_, ?_, ?_⟩
          · intro m hm1 hm2
            exact (ih2 m hm1 hm2).imp (List.mem_append_left _)
              (List.mem_append_left _)
          · dsimp only
            intro m hm
            by_cases hms : m = s
            · subst hms
              rw [slotUpdate_same] at hm
              exact absurd hm (by simp)
            · rw [slotUpdate_other _ _ _ _ hms] at hm
              exact List.mem_append_left _ (ih3 m hm)
          · dsimp only
            intro m hm
            by_cases hms : m = s
            · subst hms
              rw [slotUpdate_same] at hm
              exact absurd hm (by simp)
            · rw [slotUpdate_other _ _ _ _ hms] at hm
              exact List.mem_append_left _ (ih4 m hm)
          · dsimp only
            intro m hm
            by_cases hms : m = s
            · subst hms
              rw [slotUpdate_same] at hm
              exact absurd hm (by simp)
            · rw [slotUpdate_other _ _ _ _ hms] at hm
              intro hmem
              rcases List.mem_append.mp hmem with h | h
              · exact ih5 m hm h
              · simp at h
                exact hms h
          · intro m
            by_cases hms : m = s
            · subst hms
              rw [List.count_append]
              have hz : trm.count (ToEvent.grabStart m) = 0 :=
                List.count_eq_zero.mpr (ih5 m hs3)
              simp [hz]
            · exact count_app_le (ih6 m) (by simp [hms])
      | grabOk s hs1 hs2 =>
          refine ⟨ih1, ?_, ?_, ?_, ?_, ?_⟩
          · intro m hm1 hm2
            exact (ih2 m hm1 hm2).imp (List.mem_append_left _)
              (List.mem_append_left _)
          · dsimp only
            intro m hm
            by_cases hms : m = s
            · subst hms
              rw [slotUpdate_same] at hm
              exact absurd hm (by simp)
            · rw [slotUpdate_other _ _ _ _ hms] at hm
              exact List.mem_append_left _ (ih3 m hm)
          · dsimp only
            intro m hm
            by_cases hms : m = s
            · subst hms
              exact List.mem_append_right _ (by simp)
            · rw [slotUpdate_other _ _ _ _ hms] at hm
              exact List.mem_append_left _ (ih4 m hm)
          · dsimp only
            intro m hm
            by_cases hms : m = s
            · subst hms
              rw [slotUpdate_same] at hm
              exact absurd hm (by simp)
            · rw [slotUpdate_other _ _ _ _ hms] at hm
              intro hmem
              rcases List.mem_append.mp hmem with h | h
              · exact ih5 m hm h
              · simp at h
          · intro m
            exact count_app_le (ih6 m) (by simp)
      | grabCancelled s hs1 hs2 =>
          refine ⟨ih1, ?_, ?_, ?_, ?_, ?_⟩
          · intro m hm1 hm2
            exact (ih2 m hm1 hm2).imp (List.mem_append_left _)
              (List.mem_append_left _)
          · intro m hm
            exact List.mem_append_left _ (ih3 m hm)
          · intro m hm
            exact List.mem_append_left _ (ih4 m hm)
          · intro m hm
            intro hmem
            rcases List.mem_append.mp hmem with h | h
            · exact ih5 m hm h
            · simp at h
          · intro m
            exact count_app_le (ih6 m) (by simp)
      | release s hs1 hs2 =>
          refine ⟨?_, ?_, ?_, ?_, ?_, ?_⟩
          · dsimp only
            omega
          · dsimp only
            intro m hm1 hm2
            by_cases hm3 : m ≤ stm.r
            · exact (ih2 m hm1 hm3).imp (List.mem_append_left _)
                (List.mem_append_left _)
            · have hm4 : m = s := by omega
              subst hm4
              exact Or.inl (List.mem_append_right _ (by simp))
          · intro m hm
            exact List.mem_append_left _ (ih3 m hm)
          · intro m hm
            exact List.mem_append_left _ (ih4 m hm)
          · intro m hm
            intro hmem
            rcases List.mem_append.mp hmem with h | h
            · exact ih5 m hm h
            · simp at h
          · intro m
            exact count_app_le (ih6 m) (by simp)
      | cancel s hs1 hs2 =>
          refine ⟨ih1, ?_, ?_, ?_, ?_, ?_⟩
          · intro m hm1 hm2
            exact (ih2 m hm1 hm2).imp (List.mem_append_left _)
              (List.mem_append_left _)
          · dsimp only
            intro m hm
            by_cases hms : m = s
            · subst hms
              rw [slotUpdate_same] at hm
              exact absurd hm (by simp)
            · rw [slotUpdate_other _ _ _ _ hms] at hm
              exact List.mem_append_left _ (ih3 m hm)
          · dsimp only
            intro m hm
            by_cases hms : m = s
            · subst hms
              rw [slotUpdate_same] at hm
              exact absurd hm (by simp)
            · rw [slotUpdate_other _ _ _ _ hms] at hm
              exact List.mem_append_left _ (ih4 m hm)
          · dsimp only
            intro m hm
            by_cases hms : m = s
            · subst hms
              rw [slotUpdate_same] at hm
              exact absurd hm (by simp)
            · rw [slotUpdate_other _ _ _ _ hms] at hm
              intro hmem
              rcases List.mem_append.mp hmem with h | h
              · exact ih5 m hm h
              · simp at h
          · intro m
            exact count_app_le (ih6 m) (by simp)
      | selfCancel s hs1 hs2 =>
          refine ⟨ih1, ?_, ?_, ?_, ?_, ?_⟩
          · intro m hm1 hm2
            exact (ih2 m hm1 hm2).imp (List.mem_append_left _)
              (List.mem_append_left _)
          · dsimp only
            intro m hm
            by_cases hms : m = s
            · subst hms
              exact List.mem_append_right _ (by simp)
            · rw [slotUpdate_other _ _ _ _ hms] at hm
              exact List.mem_append_left _ (ih3 m hm)
          · dsimp only
            intro m hm
            by_cases hms : m = s
            · subst hms
              rw [slotUpdate_same] at hm
              exact absurd hm (by simp)
            · rw [slotUpdate_other _ _ _ _ hms] at hm
              exact List.mem_append_left _ (ih4 m hm)
          · dsimp only
            intro m hm
            by_cases hms : m = s
            · subst hms
              rw [slotUpdate_same] at hm
              exact absurd hm (by simp)
            · rw [slotUpdate_other _ _ _ _ hms] at hm
              intro hmem
              rcases List.mem_append.mp hmem with h | h
              · exact ih5 m hm h
              · simp at h
          · intro m
            exact count_app_le (ih6 m) (by simp)
      | skip s hs1 hs2 =>
          refine ⟨?_, ?_, ?_, ?_, ?_, ?_⟩
          · dsimp only
            omega
          · dsimp only
            intro m hm1 hm2
            by_cases hm3 : m ≤ stm.r
            · exact (ih2 m hm1 hm3).imp (List.mem_append_left _)
                (List.mem_append_left _)
            · have hm4 : m = s := by omega
              subst hm4
              exact Or.inr (List.mem_append_left _ (ih3 m hs1))
          · intro m hm
            exact List.mem_append_left _ (ih3 m hm)
          · intro m hm
            exact List.mem_append_left _ (ih4 m hm)
          · intro m hm
            intro hmem
            rcases List.mem_append.mp hmem with h | h
            · exact ih5 m hm h
            · simp at h
          · intro m
            exact count_app_le (ih6 m) (by simp)

/-- C1: for every TO monitor and seqno N, a grab of N completes successfully
exactly after N-1 was released or self-cancelled (or N is the starting seqno
and N-1 was covered at creation); seqno N is never released before N-1 was
released or self-cancelled; and the slot of any seqno holds at most one
waiter (no seqno is ever grabbed twice). -/
theorem to_grab_release_exact_order (len s0 : Nat) (tr : List ToEvent)
    (st : ToState) (h0 : 1 ≤ s0)
    (htr : ToTrace (gcs_to_create len s0) tr st) :
    (∀ tr1 N tr2, tr = tr1 ++ ToEvent.grabOk N :: tr2 →
        N = s0 ∨ ToEvent.release (N - 1) ∈ tr1 ∨
          ToEvent.selfCancel (N - 1) ∈ tr1)
  ∧ (∀ tr1 N tr2, tr = tr1 ++ ToEvent.release N :: tr2 →
        N = s0 ∨ ToEvent.release (N - 1) ∈ tr1 ∨
          ToEvent.selfCancel (N - 1) ∈ tr1)
  ∧ (∀ s, tr.count (ToEvent.grabStart s) ≤ 1) := by
  refine ⟨?_, ?_, ?_⟩
  · intro tr1 N tr2 heq
    subst heq
    obtain ⟨mid, hm1, hm2⟩ := toTrace_append htr
    obtain ⟨mid2, hs1, hs2⟩ :=
      toTrace_append (u := [ToEvent.grabOk N]) (v := tr2) hm2
    have hstep := toTrace_single_inv hs1
    obtain ⟨iv1, iv2, _, _, _, _⟩ := toInv_holds len s0 h0 hm1
    cases hstep with
    | grabOk sx hq1 hq2 =>
        by_cases hN : N = s0
        · exact Or.inl hN
        · exact Or.inr (iv2 (N - 1) (by omega) (by omega))
  · intro tr1 N tr2 heq
    subst heq
    obtain ⟨mid, hm1, hm2⟩ := toTrace_append htr
    obtain ⟨mid2, hs1, hs2⟩ :=
      toTrace_append (u := [ToEvent.release N]) (v := tr2) hm2
    have hstep := toTrace_single_inv hs1
    obtain ⟨iv1, iv2, _, _, _, _⟩ := toInv_holds len s0 h0 hm1
    cases hstep with
    | release sx hq1 hq2 =>
        by_cases hN : N = s0
        · exact Or.inl hN
        · exact Or.inr (iv2 (N - 1) (by omega) (by omega))
  · exact (toInv_holds len s0 h0 htr).2.2.2.2.2

/-- C1 witness: a monitor created with len 4 and starting seqno 1; the trace
grab-start 1, grab-success 1 satisfies the ordering conclusion at N = 1. -/
theorem to_grab_release_exact_order_witness :
    (1 : Nat) = 1 ∨
      ToEvent.release 0 ∈ [ToEvent.grabStart 1] ∨
      ToEvent.selfCancel 0 ∈ [ToEvent.grabStart 1] :=
  (to_grab_release_exact_order 4 1
      [ToEvent.grabStart 1, ToEvent.grabOk 1] _ (by decide)
      (ToTrace.snoc
        (ToTrace.snoc ToTrace.nil
          (ToStep.grabStart (gcs_to_create 4 1) 1
            (by decide) (by decide) (by decide)))
        (ToStep.grabOk _ 1 (by decide) (by decide)))).1
    [ToEvent.grabStart 1] 1 [] rfl

/-- Modelled from the spec: the admission check of gcs_to_grab (spec section
4.E): out-of-range error for an already released seqno, -EAGAIN when the
seqno is more than len ahead of the watermark, otherwise the caller proceeds
to wait (none). -/
def gcs_to_grab_check (st : ToState) (s : Nat) : Option Int :=
  if s ≤ st.r then some (-ERANGE)
  else if st.r + st.len < s then some (-EAGAIN)
  else none

/-- C5: gcs_to_grab with s <= r refuses with the out-of-range error; with
s - r > len it refuses with -EAGAIN; otherwise it proceeds to wait, a
successful completion marks the slot used, and a cancelled-error completion
happens only on a cancelled slot. -/
theorem gcs_to_grab_outcomes (st : ToState) (s : Nat) :
    (s ≤ st.r → gcs_to_grab_check st s = some (-ERANGE))
  ∧ (st.r + st.len < s → gcs_to_grab_check st s = some (-EAGAIN))
  ∧ (st.r < s → s ≤ st.r + st.len →
        gcs_to_grab_check st s = none
      ∧ (∀ st2, ToStep st (ToEvent.grabOk s) st2 →
            st2.slots s = SlotState.used)
      ∧ (∀ st2, ToStep st (ToEvent.grabCancelled s) st2 →
            st.slots s = SlotState.cancelled ∨
            st.slots s = SlotState.selfCancelled)) := by
  refine ⟨?_, ?_, ?_⟩
  · intro h
    simp [gcs_to_grab_check, h]
  · intro h
    have h2 : ¬ s ≤ st.r := by omega
    simp [gcs_to_grab_check, h, h2]
  · intro h1 h2
    refine ⟨?_, ?_, ?_⟩
    · have h3 : ¬ s ≤ st.r := by omega
      have h4 : ¬ (st.r + st.len < s) := by omega
      simp [gcs_to_grab_check, h3, h4]
    · intro st2 hstep
      cases hstep with
      | grabOk sx hq1 hq2 => exact slotUpdate_same _ _ _
    · intro st2 hstep
      cases hstep with
      | grabCancelled sx hq1 hq2 => exact hq1

/-- C5 witness: a fresh monitor with len 4 and starting seqno 1 at s = 1:
the check admits the waiter, a successful grab marks the slot used, and a
cancelled-error grab needs a cancelled slot. -/
theorem gcs_to_grab_outcomes_witness :
    gcs_to_grab_check (gcs_to_create 4 1) 1 = none
  ∧ (∀ st2, ToStep (gcs_to_create 4 1) (ToEvent.grabOk 1) st2 →
        st2.slots 1 = SlotState.used)
  ∧ (∀ st2, ToStep (gcs_to_create 4 1) (ToEvent.grabCancelled 1) st2 →
        (gcs_to_create 4 1).slots 1 = SlotState.cancelled ∨
        (gcs_to_create 4 1).slots 1 = SlotState.selfCancelled) :=
  (gcs_to_grab_outcomes (gcs_to_create 4 1) 1).2.2 (by decide) (by decide)

/-- Modelled from the spec: the range check of gcs_to_cancel (spec section
4.E and gcs.h lines 234-245): -ERANGE when the seqno is already used
(s <= r), success (0) otherwise. -/
def gcs_to_cancel_check (st : ToState) (s : Nat) : Int :=
  if s ≤ st.r then -ERANGE else 0

/-- Once a slot is cancelled (or self-cancelled) it stays so along every
subsequent trace of the monitor. -/
theorem cancelled_absorbing {s : Nat} :
    ∀ {tr : List ToEvent} {st st2 : ToState},
    ToTrace st tr st2 →
    (st.slots s = SlotState.cancelled ∨
     st.slots s = SlotState.selfCancelled) →
    (st2.slots s = SlotState.cancelled ∨
     st2.slots s = SlotState.selfCancelled) := by
  intro tr st st2 htr
  induction htr with
  | nil => exact id
  | @snoc trm stm e stx h1 h2 ih =>
      intro h
      have hmid := ih h
      cases h2 with
      | grabStart t hq1 hq2 hq3 =>
          by_cases hts : s = t
          · subst hts
            rcases hmid with h2 | h2 <;> rw [hq3] at h2 <;> simp at h2
          · dsimp only
            rw [slotUpdate_other _ _ _ _ hts]
            exact hmid
      | grabOk t hq1 hq2 =>
          by_cases hts : s = t
          · subst hts
            rcases hmid with h2 | h2 <;> rw [hq1] at h2 <;> simp at h2
          · dsimp only
            rw [slotUpdate_other _ _ _ _ hts]
            exact hmid
      | grabCancelled t hq1 hq2 => exact hmid
      | release t hq1 hq2 => exact hmid
      | cancel t hq1 hq2 =>
          by_cases hts : s = t
          · subst hts
            exact Or.inl (slotUpdate_same _ _ _)
          · dsimp only
            rw [slotUpdate_other _ _ _ _ hts]
            exact hmid
      | selfCancel t hq1 hq2 =>
          by_cases hts : s = t
          · subst hts
            exact Or.inr (slotUpdate_same _ _ _)
          · dsimp only
            rw [slotUpdate_other _ _ _ _ hts]
            exact hmid
      | skip t hq1 hq2 => exact hmid

/-- C6: after gcs_to_cancel (to, s) succeeds, in every reachable later state
the slot of s is still cancelled, no grab of s can complete successfully, and
while the watermark has not passed s a grab of s returns cancelled-error;
gcs_to_cancel with s <= r returns -ERANGE; and cancellation does not stall
the sequence: after cancel(s) and release(s-1) there is a continuation of the
monitor in which grab(s+1) completes successfully. -/
theorem gcs_to_cancel_spec (st stc : ToState) (s : Nat)
    (hstep : ToStep st (ToEvent.cancel s) stc) :
    (∀ tr st2, ToTrace stc tr st2 →
        (st2.slots s = SlotState.cancelled ∨
         st2.slots s = SlotState.selfCancelled)
      ∧ (∀ st3, ¬ ToStep st2 (ToEvent.grabOk s) st3)
      ∧ (st2.r < s → ToStep st2 (ToEvent.grabCancelled s) st2))
  ∧ (∀ st0 : ToState, ∀ m : Nat, m ≤ st0.r →
        gcs_to_cancel_check st0 m = -ERANGE)
  ∧ (∀ str, ToStep stc (ToEvent.release (s - 1)) str →
        st.slots (s + 1) = SlotState.empty → 1 ≤ st.len →
        ∃ tr st2, ToTrace str tr st2 ∧
          ∃ st3, ToStep st2 (ToEvent.grabOk (s + 1)) st3) := by
  cases hstep with
  | cancel sx hq1 hq2 =>
      refine ⟨?_, ?_, ?_⟩
      · intro tr st2 htr
        have habs := cancelled_absorbing htr
          (Or.inl (slotUpdate_same st.slots s SlotState.cancelled))
        refine ⟨habs, ?_, ?_⟩
        · intro st3 hgo
          cases hgo with
          | grabOk sy hg1 hg2 =>
              rcases habs with h2 | h2 <;> rw [h2] at hg1 <;> simp at hg1
        · intro hr2
          exact ToStep.grabCancelled st2 s habs hr2
      · intro st0 m hm
        simp [gcs_to_cancel_check, hm]
      · intro str hrel hempty hlen
        cases hrel with
        | release sz hr1 hr2 =>
            have hr2x : st.r + 1 = s - 1 := hr2
            have hs1 : 1 ≤ s := by omega
            refine ⟨_, _, ToTrace.snoc (ToTrace.snoc (ToTrace.snoc ToTrace.nil
                (ToStep.selfCancel _ s ?ha1 ?ha2))
                (ToStep.skip _ s ?hb1 ?hb2))
                (ToStep.grabStart _ (s + 1) ?hc1 ?hc2 ?hc3),
              _, ToStep.grabOk _ (s + 1) ?hd1 ?hd2⟩
            case ha1 =>
              show s - 1 < s
              omega
            case ha2 =>
              exact Or.inr (slotUpdate_same st.slots s SlotState.cancelled)
            case hb1 =>
              exact slotUpdate_same _ s SlotState.selfCancelled
            case hb2 =>
              show s - 1 + 1 = s
              omega
            case hc1 =>
              show s < s + 1
              omega
            case hc2 =>
              show s + 1 ≤ s + st.len
              omega
            case hc3 =>
              show slotUpdate (slotUpdate st.slots s SlotState.cancelled) s
                  SlotState.selfCancelled (s + 1) = SlotState.empty
              rw [slotUpdate_other _ _ _ _ (by omega),
                  slotUpdate_other _ _ _ _ (by omega)]
              exact hempty
            case hd1 =>
              exact slotUpdate_same _ (s + 1) SlotState.waiting
            case hd2 =>
              show s + 1 = s + 1
              rfl

/-- Concrete slot map for the C6 witness: seqno 2 is held (used), the rest
are free. -/
def toWitSlots : Nat → SlotState :=
  fun n => if n = 2 then SlotState.used else SlotState.empty

/-- Concrete TO monitor state for the C6 witness: len 4, watermark 1,
seqno 2 held. -/
def toWitSt : ToState := ⟨4, 1, toWitSlots⟩

/-- C6 witness: cancel seqno 3 while seqno 2 is held, release 2; the monitor
can then still reach a successful grab of seqno 4. -/
theorem gcs_to_cancel_spec_witness :
    ∃ tr st2,
      ToTrace ⟨4, 2, slotUpdate toWitSt.slots 3 SlotState.cancelled⟩ tr st2 ∧
      ∃ st3, ToStep st2 (ToEvent.grabOk 4) st3 :=
  (gcs_to_cancel_spec toWitSt _ 3
      (ToStep.cancel toWitSt 3 (by decide) (Or.inl (by decide)))).2.2 _
    (ToStep.release _ 2 (by decide) (by decide)) (by decide) (by decide)
